import Mathlib

set_option maxRecDepth 40000
set_option maxHeartbeats 2000000

/-!
Verification of the content extraction and ad-stripping engine of the
sports-aggregator repository.

The development shallowly embeds the Python sources:
  * conservative_ad_removal_for_server.py  (ConservativeAdRemovalProcessor)
  * deploy_enhanced_sports_aggregator.py   (UltimateContentProcessor,
    WordPressContentFormatter)
HTML documents are modelled as ordered DOM forests in first-child /
next-sibling form; strings are processed as lists of characters so that
every operation is structurally recursive and evaluable by the kernel.
Regular expressions that occur in the sources are small and fixed, and are
embedded as dedicated matchers with the exact semantics the sources rely on
(Python re: '\s' on ASCII whitespace, '\w' on ASCII word characters, '.'
not matching a newline, case-insensitive search via prior lowercasing).
String case operations model Python str.lower/str.upper/str.islower on the
ASCII range.
-/

namespace SportsAgg

/-- ASCII whitespace, the characters matched by the sources' uses of
Python's str.strip() and the regex class \s on the inputs modelled here. -/
def isWsC (c : Char) : Bool := c = ' ' || c = '\n' || c = '\t' || c = '\r'

/-- Drop leading whitespace. -/
def trimLeft : List Char → List Char
  | [] => []
  | c :: t => if isWsC c then trimLeft t else c :: t

/-- Python str.strip(): drop leading and trailing whitespace. -/
def trimWs (s : List Char) : List Char :=
  (trimLeft (trimLeft s.reverse).reverse)

/-- Test whether the first list is a prefix of the second. -/
def isPrefL : List Char → List Char → Bool
  | [], _ => true
  | _ :: _, [] => false
  | a :: as, b :: bs => a = b && isPrefL as bs

/-- Python substring containment (the in operator on str). -/
def containsSub (hay needle : List Char) : Bool :=
  match hay with
  | [] => needle.isEmpty
  | _ :: t => isPrefL needle hay || containsSub t needle

/-- Consume an expected prefix, returning the remainder. -/
def dropPref : List Char → List Char → Option (List Char)
  | [], s => some s
  | _ :: _, [] => none
  | a :: as, b :: bs => if a = b then dropPref as bs else none

/-- Skip any run of leading whitespace (regex \s*). -/
def dropWsAll : List Char → List Char
  | [] => []
  | c :: t => if isWsC c then dropWsAll t else c :: t

/-- Require at least one whitespace character, then skip the whole run
(the greedy regex \s+ followed by a token that cannot begin with
whitespace). -/
def dropWs1 : List Char → Option (List Char)
  | [] => none
  | c :: t => if isWsC c then some (dropWsAll t) else none

/-- Python str.lower() on the ASCII range. -/
def lowerA (c : Char) : Char :=
  match c with
  | 'A' => 'a' | 'B' => 'b' | 'C' => 'c' | 'D' => 'd' | 'E' => 'e'
  | 'F' => 'f' | 'G' => 'g' | 'H' => 'h' | 'I' => 'i' | 'J' => 'j'
  | 'K' => 'k' | 'L' => 'l' | 'M' => 'm' | 'N' => 'n' | 'O' => 'o'
  | 'P' => 'p' | 'Q' => 'q' | 'R' => 'r' | 'S' => 's' | 'T' => 't'
  | 'U' => 'u' | 'V' => 'v' | 'W' => 'w' | 'X' => 'x' | 'Y' => 'y'
  | 'Z' => 'z'
  | other => other

/-- Lowercase a character list. -/
def lowerL (s : List Char) : List Char := s.map lowerA

/-- Python str.upper() on a single ASCII character. -/
def upperA (c : Char) : Char :=
  match c with
  | 'a' => 'A' | 'b' => 'B' | 'c' => 'C' | 'd' => 'D' | 'e' => 'E'
  | 'f' => 'F' | 'g' => 'G' | 'h' => 'H' | 'i' => 'I' | 'j' => 'J'
  | 'k' => 'K' | 'l' => 'L' | 'm' => 'M' | 'n' => 'N' | 'o' => 'O'
  | 'p' => 'P' | 'q' => 'Q' | 'r' => 'R' | 's' => 'S' | 't' => 'T'
  | 'u' => 'U' | 'v' => 'V' | 'w' => 'W' | 'x' => 'X' | 'y' => 'Y'
  | 'z' => 'Z'
  | other => other

/-- The ASCII lowercase letters; Python str.islower() on the single ASCII
characters handled by the sources. -/
def lowerLetters : List Char := "abcdefghijklmnopqrstuvwxyz".data

/-- Python c.islower() for an ASCII character. -/
def isLowerA (c : Char) : Bool := lowerLetters.contains c

/-- ASCII word character, the regex class \w. -/
def isWordC (c : Char) : Bool := c.isAlphanum || c = '_'

/-!
DOM model.

An HF value is an ordered forest of DOM nodes in first-child / next-sibling
form: nil ends a sibling chain, text is a text node followed by its later
siblings, and elem carries its tag name, class attribute (BeautifulSoup's
token list), id attribute ("" when absent), role attribute ("" when
absent), its children forest, and its later siblings.
-/
inductive HF where
  | nil : HF
  | text (s : String) (rest : HF) : HF
  | elem (tag : String) (classes : List String) (idAttr : String)
      (role : String) (children : HF) (rest : HF) : HF
deriving DecidableEq, Repr

/-- BeautifulSoup get_text(strip=True): the concatenation of every text
node's stripped string, in document order. -/
def getTextF : HF → List Char
  | .nil => []
  | .text s rest => trimWs s.data ++ getTextF rest
  | .elem _ _ _ _ ch rest => getTextF ch ++ getTextF rest

/-- The nonempty stripped strings of a forest in document order, as used by
get_text with a separator. -/
def collectStrs : HF → List (List Char)
  | .nil => []
  | .text s rest =>
      if (trimWs s.data).isEmpty then collectStrs rest
      else trimWs s.data :: collectStrs rest
  | .elem _ _ _ _ ch rest => collectStrs ch ++ collectStrs rest

/-- BeautifulSoup get_text(separator='\n\n', strip=True). -/
def getTextSep (f : HF) : List Char :=
  List.intercalate ['\n', '\n'] (collectStrs f)

/-!
ConservativeAdRemovalProcessor (conservative_ad_removal_for_server.py).
-/

/-- One of the processor's ad_patterns regexes: literal lowercase words
joined by \s+, optionally followed by \s+\w+ (the patterns are only of
these two shapes). -/
structure AdPattern where
  words : List (List Char)
  tailWord : Bool
deriving DecidableEq, Repr

/-- Match a pattern anchored at the current position: the words separated
by whitespace runs, then, when tailWord is set, a whitespace run and at
least one word character. -/
def matchWordsAt : List (List Char) → Bool → List Char → Bool
  | [], true, s =>
      (match dropWs1 s with
       | some (c :: _) => isWordC c
       | _ => false)
  | [], false, _ => true
  | [w], tailW, s =>
      (match dropPref w s with
       | some s2 => matchWordsAt [] tailW s2
       | none => false)
  | w :: w2 :: ws, tailW, s =>
      (match dropPref w s with
       | some s2 =>
           (match dropWs1 s2 with
            | some s3 => matchWordsAt (w2 :: ws) tailW s3
            | none => false)
       | none => false)

/-- re.search of an ad pattern: try the anchored match at every position.
The caller lowercases the text first, modelling re.IGNORECASE. -/
def patSearch (p : AdPattern) : List Char → Bool
  | [] => matchWordsAt p.words p.tailWord []
  | c :: t => matchWordsAt p.words p.tailWord (c :: t) || patSearch p t

/-- The processor's self.ad_patterns list. -/
def adPatterns : List AdPattern :=
  [ ⟨["sponsored".data, "by".data], true⟩,
    ⟨["buy".data, "now".data], true⟩,
    ⟨["shop".data, "now".data], false⟩,
    ⟨["sign".data, "up".data, "now".data], false⟩,
    ⟨["subscribe".data, "to".data, "our".data, "newsletter".data], false⟩,
    ⟨["special".data, "offer".data, "limited".data, "time".data], false⟩,
    ⟨["while".data, "supplies".data, "last".data], false⟩,
    ⟨["click".data, "here".data, "to".data], true⟩ ]

/-- The ad_indicators phrase list of _is_specific_ad_element. -/
def adIndicators : List (List Char) :=
  [ "sponsored by".data, "buy now".data, "shop now".data,
    "sign up now".data, "subscribe to our newsletter".data,
    "special offer".data, "limited time".data ]

/-- The promo_words list of _is_specific_ad_element. -/
def promoWords : List (List Char) :=
  [ "buy".data, "shop".data, "subscribe".data, "sign up".data,
    "offer".data, "deal".data, "discount".data ]

/-- The ad_terms list of _is_specific_ad_element. -/
def adTerms : List (List Char) :=
  [ "ad".data, "advertisement".data, "sponsored".data, "promo".data ]

/-- The first loop of _is_specific_ad_element: some ad pattern matches the
element text. -/
def textHasAdPattern (t : List Char) : Bool :=
  adPatterns.any fun p => patSearch p t

/-- The second loop of _is_specific_ad_element: some ad indicator phrase is
a substring of the element text. -/
def textHasAdIndicator (t : List Char) : Bool :=
  adIndicators.any fun i => containsSub t i

/-- The promo-word check of _is_specific_ad_element. -/
def textHasPromoWord (t : List Char) : Bool :=
  promoWords.any fun w => containsSub t w

/-- ' '.join(element.get('class', [])). -/
def joinClasses (cs : List String) : List Char :=
  (String.intercalate " " cs).data

/-- has_ad_class or has_ad_id of _is_specific_ad_element: an ad term occurs
in the lowercased space-joined class attribute or in the lowercased id. -/
def hasAdClassOrId (classes : List String) (idAttr : String) : Bool :=
  (adTerms.any fun term => containsSub (lowerL (joinClasses classes)) term) ||
  (adTerms.any fun term => containsSub (lowerL idAttr.data) term)

/-- The truthiness guard element.get('class') or element.get('id'). -/
def attrsPresent (classes : List String) (idAttr : String) : Bool :=
  !classes.isEmpty || idAttr != ""

/-- _is_specific_ad_element of ConservativeAdRemovalProcessor, as a function
of the element's class list, id attribute, and combined descendant text
(element.get_text(strip=True)); the text is lowercased as in the source.
True means the element is removed. -/
def isSpecificAdElement (classes : List String) (idAttr : String)
    (childText : List Char) : Bool :=
  textHasAdPattern (lowerL childText) ||
  textHasAdIndicator (lowerL childText) ||
  (attrsPresent classes idAttr && hasAdClassOrId classes idAttr &&
    textHasPromoWord (lowerL childText))

/-- The classifier applied to the head node of a forest (the element the
pipeline is visiting). -/
def isSpecificAdNode : HF → Bool
  | .elem _ c i _ ch _ => isSpecificAdElement c i (getTextF ch)
  | _ => false

/-- A CSS selector of the conservative processor's ad_selectors list: an
exact class token or an exact id. -/
inductive CSel where
  | cls (c : String)
  | ids (i : String)
deriving DecidableEq, Repr

/-- Selector matching: .c matches an element whose class token list
contains c; #i matches an element whose id equals i. -/
def cselMatches : CSel → String → List String → String → Bool
  | .cls c, _, classes, _ => classes.contains c
  | .ids s, _, _, idAttr => idAttr == s

/-- The processor's self.ad_selectors list. -/
def conservativeSelectors : List CSel :=
  [ .cls "ad", .cls "ads", .cls "ad-banner", .cls "ad-container",
    .cls "advertisement", .cls "sponsored", .cls "sponsored-post",
    .cls "promo", .cls "promotion",
    .ids "ad", .ids "ads", .ids "advertisement", .ids "sponsored",
    .cls "newsletter-signup", .cls "newsletter-form", .cls "subscribe-form",
    .cls "social-share", .cls "social-sharing", .cls "share-buttons" ]

/-- Step 1 of remove_ads_from_html for one selector: visit the forest in
document order and detach every element that matches the selector and is
classified as a specific ad element. A detached subtree is not visited
further, matching decompose(). -/
def remCSel (sel : CSel) : HF → HF
  | .nil => .nil
  | .text s rest => .text s (remCSel sel rest)
  | .elem t c i r ch rest =>
      if cselMatches sel t c i && isSpecificAdElement c i (getTextF ch) then
        remCSel sel rest
      else .elem t c i r (remCSel sel ch) (remCSel sel rest)

/-- Does some direct text-node child match the pattern (find_all with a
text regex yields text nodes; the processor then inspects text_element's
parent, so the relevant texts here are the element's direct text
children)? Matching is case-insensitive via lowering. -/
def directTextMatches (p : AdPattern) : HF → Bool
  | .nil => false
  | .text s rest => patSearch p (lowerL s.data) || directTextMatches p rest
  | .elem _ _ _ _ _ rest => directTextMatches p rest

/-- Step 2 of remove_ads_from_html for one pattern: detach every element
that has a direct text child matching the pattern and is itself classified
as a specific ad element. The traversal is parent-first in document order;
document-level bare text nodes (whose parent is the soup object itself) are
left in place. -/
def remPat (p : AdPattern) : HF → HF
  | .nil => .nil
  | .text s rest => .text s (remPat p rest)
  | .elem t c i r ch rest =>
      if directTextMatches p ch && isSpecificAdElement c i (getTextF ch) then
        remPat p rest
      else .elem t c i r (remPat p ch) (remPat p rest)

/-- Serialization by str(soup) followed by re-parsing with html.parser:
adjacent sibling text nodes are merged into one text node (their raw
strings concatenate); element structure is unchanged. -/
def mergeTexts : HF → HF
  | .nil => .nil
  | .elem t c i r ch rest => .elem t c i r (mergeTexts ch) (mergeTexts rest)
  | .text s rest =>
      match mergeTexts rest with
      | .text s2 rest2 => .text (s ++ s2) rest2
      | other => .text s other

/-- The selector loop of remove_ads_from_html. -/
def removeAdsStep1 (doc : HF) : HF :=
  conservativeSelectors.foldl (fun d sel => remCSel sel d) doc

/-- The text-pattern loop of remove_ads_from_html. -/
def removeAdsStep2 (doc : HF) : HF :=
  adPatterns.foldl (fun d p => remPat p d) doc

/-- remove_ads_from_html of ConservativeAdRemovalProcessor: both removal
passes followed by the str(soup) round trip (whose observable effect on the
tree is the merging of adjacent text nodes). -/
def removeAdsFromHtml (doc : HF) : HF :=
  mergeTexts (removeAdsStep2 (removeAdsStep1 doc))

/-!
UltimateContentProcessor (deploy_enhanced_sports_aggregator.py).
-/

/-- A selector of the processor's enhanced ad_selectors list: a bare tag
name, or a CSS attribute-substring selector on the class attribute value or
on the id attribute value. -/
inductive ESel where
  | tagSel (t : String)
  | clsContains (s : String)
  | idContains (s : String)
deriving DecidableEq, Repr

/-- Matching for the enhanced selectors; the attribute-substring form
matches against the space-joined class string, case-sensitively, as CSS
attribute selectors do. -/
def eselMatches : ESel → String → List String → String → Bool
  | .tagSel t, tg, _, _ => tg == t
  | .clsContains s, _, classes, _ => containsSub (joinClasses classes) s.data
  | .idContains s, _, _, idAttr => containsSub idAttr.data s.data

/-- The processor's self.ad_selectors list, in source order. -/
def enhancedAdSelectors : List ESel :=
  [ .clsContains "ad", .clsContains "advert", .clsContains "sponsor",
    .clsContains "related", .clsContains "recommend", .clsContains "sidebar",
    .idContains "ad", .idContains "advert", .idContains "sponsor",
    .tagSel "script", .tagSel "style", .tagSel "nav", .tagSel "header",
    .tagSel "footer", .tagSel "aside",
    .clsContains "nav", .clsContains "header", .clsContains "footer",
    .clsContains "breadcrumb", .clsContains "share", .clsContains "social",
    .clsContains "comment", .clsContains "newsletter",
    .clsContains "news-letter", .clsContains "related-articles",
    .clsContains "recommended" ]

/-- A node-local removal predicate on tag, classes and id. -/
abbrev NPred := String → List String → String → Bool

/-- Unconditionally detach every element satisfying a node-local predicate,
in document order (decompose of every find_all or select match). -/
def remBy (p : NPred) : HF → HF
  | .nil => .nil
  | .text s rest => .text s (remBy p rest)
  | .elem t c i r ch rest =>
      if p t c i then remBy p rest
      else .elem t c i r (remBy p ch) (remBy p rest)

/-- The predicate of the find_all(['script', 'style']) pass. -/
def scriptStylePred : NPred := fun t _ _ => t == "script" || t == "style"

/-- All removal predicates run by _remove_unwanted_elements before the
empty-shell sweep: the script/style pass, then one pass per ad selector. -/
def allRemovalPreds : List NPred :=
  scriptStylePred ::
    enhancedAdSelectors.map (fun s => fun tg c i => eselMatches s tg c i)

/-- Run a list of removal predicates left to right. -/
def applyPreds (ps : List NPred) (doc : HF) : HF :=
  ps.foldl (fun d p => remBy p d) doc

/-- Tags subject to the empty-shell sweep. -/
def sweepTags : List String := ["p", "div", "span"]

/-- Embedded-media tags that protect an empty shell. -/
def mediaTags : List String := ["img", "video", "iframe"]

/-- Does the forest contain a media element at any depth
(element.find_all(['img', 'video', 'iframe']) nonempty)? -/
def hasMediaDesc : HF → Bool
  | .nil => false
  | .text _ rest => hasMediaDesc rest
  | .elem t _ _ _ ch rest =>
      mediaTags.contains t || hasMediaDesc ch || hasMediaDesc rest

/-- The removal condition of the empty-shell loop: a p/div/span whose
stripped text is empty and which has no embedded media descendant. -/
def sweepable (t : String) (ch : HF) : Bool :=
  sweepTags.contains t && (getTextF ch).isEmpty && !hasMediaDesc ch

/-- The final loop of _remove_unwanted_elements: detach any p/div/span
whose stripped text is empty and which has no embedded media descendant.
The snapshot loop visits parents before their children, so a removed
shell's subtree is not revisited; this is the same top-down traversal. -/
def sweepEmpties : HF → HF
  | .nil => .nil
  | .text s rest => .text s (sweepEmpties rest)
  | .elem t c i r ch rest =>
      if sweepable t ch then sweepEmpties rest
      else .elem t c i r (sweepEmpties ch) (sweepEmpties rest)

/-- _remove_unwanted_elements of UltimateContentProcessor: script/style
removal, the ad-selector passes, then the empty-shell sweep. -/
def removeUnwantedElements (doc : HF) : HF :=
  sweepEmpties (applyPreds allRemovalPreds doc)

/-!
Content-area location: _extract_full_article.
-/

/-- A selector of the article_selectors list. -/
inductive ASel where
  | tagSel (t : String)
  | roleSel (v : String)
  | clsSel (c : String)
  | idSel (i : String)
deriving DecidableEq, Repr

/-- Matching for article selectors. -/
def aselMatches : ASel → String → List String → String → String → Bool
  | .tagSel t, tg, _, _, _ => tg == t
  | .roleSel v, _, _, _, role => role == v
  | .clsSel c, _, classes, _, _ => classes.contains c
  | .idSel i, _, _, idAttr, _ => idAttr == i

/-- An element picked out of a forest. -/
structure Elem where
  tag : String
  classes : List String
  idAttr : String
  role : String
  children : HF
deriving DecidableEq, Repr

/-- soup.select_one: the first matching element in document (pre-order)
order. -/
def selectOne (s : ASel) : HF → Option Elem
  | .nil => none
  | .text _ rest => selectOne s rest
  | .elem t c i r ch rest =>
      if aselMatches s t c i r then some ⟨t, c, i, r, ch⟩
      else
        match selectOne s ch with
        | some e => some e
        | none => selectOne s rest

/-- soup.find(tag): the first element with the given tag name. -/
def findTag (tg : String) : HF → Option Elem
  | .nil => none
  | .text _ rest => findTag tg rest
  | .elem t c i r ch rest =>
      if t == tg then some ⟨t, c, i, r, ch⟩
      else
        match findTag tg ch with
        | some e => some e
        | none => findTag tg rest

/-- The article_selectors list of _extract_full_article, in source order. -/
def articleSelectors : List ASel :=
  [ .tagSel "article", .roleSel "main", .clsSel "content",
    .clsSel "article-content", .clsSel "post-content",
    .clsSel "entry-content", .clsSel "story-body", .clsSel "article-body",
    .idSel "content", .clsSel "main-content", .clsSel "story-content" ]

/-- The selector loop of _extract_full_article: article_element is
reassigned on every iteration and the loop breaks on the first match whose
stripped text length exceeds 200; when no selector qualifies, the variable
retains the result of select_one for the last selector, qualifying or
not. -/
def selLoop : List ASel → HF → Option Elem
  | [], _ => none
  | [s], doc => selectOne s doc
  | s :: s2 :: rest, doc =>
      match selectOne s doc with
      | some e =>
          if 200 < (getTextF e.children).length then some e
          else selLoop (s2 :: rest) doc
      | none => selLoop (s2 :: rest) doc

/-- The body fallback of _extract_full_article: find body, decompose its
find_all(['nav', 'header', 'footer', 'aside', '.sidebar']) matches (the
'.sidebar' entry is compared as a tag name by find_all and so never
matches), and take its text; with no body, the whole document's text. -/
def bodyFallbackText (doc : HF) : List Char :=
  match findTag "body" doc with
  | some b =>
      getTextSep (remBy (fun tg _ _ =>
        ["nav", "header", "footer", "aside", ".sidebar"].contains tg)
        b.children)
  | none => getTextSep doc

/-- The text_content chosen by _extract_full_article on the cleaned
document: the selector loop's element text, or the body fallback. -/
def chosenText (cleaned : HF) : List Char :=
  match selLoop articleSelectors cleaned with
  | some e => getTextSep e.children
  | none => bodyFallbackText cleaned

/-- _extract_full_article of UltimateContentProcessor, applied to a fetched
document: clean with _remove_unwanted_elements, run the selector loop, fall
back to the body text, and return the text only when its stripped length
exceeds 100. -/
def extractFullArticle (doc : HF) : Option (List Char) :=
  if 100 < (trimWs (chosenText (removeUnwantedElements doc))).length then
    some (chosenText (removeUnwantedElements doc))
  else none

/-!
WordPressContentFormatter (deploy_enhanced_sports_aggregator.py).
-/

/-- One promotional pattern of _clean_paragraph_text: literal lowercase
words separated by '.*' in the regex. -/
def promoPatterns : List (List (List Char)) :=
  [ ["subscribe".data, "newsletter".data],
    ["sign".data, "up".data, "updates".data],
    ["limited".data, "time".data, "offer".data],
    ["discount".data, "code".data],
    ["shop".data, "now".data],
    ["buy".data, "now".data],
    ["limited".data, "edition".data],
    ["while".data, "supplies".data, "last".data] ]

/-- Find a literal within the current no-newline window (regex '.' does not
match a newline, so a gap crossing a newline is not allowed); returns the
remainder after the occurrence. -/
def findSubNoNl (w : List Char) : List Char → Option (List Char)
  | [] => if w.isEmpty then some [] else none
  | c :: t =>
      match dropPref w (c :: t) with
      | some rest => some rest
      | none => if c = '\n' then none else findSubNoNl w t

/-- Match the remaining literals of a '.*'-joined pattern inside one
no-newline window. Taking the earliest occurrence of each literal is
complete because the whole match must sit inside a single newline-free
segment. -/
def dotStarTail : List (List Char) → List Char → Bool
  | [], _ => true
  | w :: ws, s =>
      match findSubNoNl w s with
      | some rest => dotStarTail ws rest
      | none => false

/-- Anchored attempt of a '.*'-joined pattern at the current position. -/
def dotStarAt (parts : List (List Char)) (s : List Char) : Bool :=
  match parts with
  | [] => true
  | w :: ws =>
      match dropPref w s with
      | some rest => dotStarTail ws rest
      | none => false

/-- re.search of a '.*'-joined pattern: try the anchored match at every
position. The caller lowercases the text, modelling re.IGNORECASE. -/
def dotStarSearch (parts : List (List Char)) : List Char → Bool
  | [] => dotStarAt parts []
  | c :: t => dotStarAt parts (c :: t) || dotStarSearch parts t

/-- re.sub(r'\s+', ' ', s): replace every maximal whitespace run by one
space. -/
def collapseWs : List Char → List Char
  | [] => []
  | [c] => if isWsC c then [' '] else [c]
  | c :: d :: rest =>
      if isWsC c then
        if isWsC d then collapseWs (d :: rest)
        else ' ' :: collapseWs (d :: rest)
      else c :: collapseWs (d :: rest)

/-- Python str.replace with a multi-character needle: non-overlapping,
left-to-right. The fuel argument (the input length suffices, every step
consuming at least one character) keeps the recursion structural. -/
def replaceSub (pat rep : List Char) : Nat → List Char → List Char
  | _, [] => []
  | 0, s => s
  | fuel + 1, c :: t =>
      match dropPref pat (c :: t) with
      | some rest => rep ++ replaceSub pat rep fuel rest
      | none => c :: replaceSub pat rep fuel t

/-- Python str.replace entry point. -/
def replaceAllL (pat rep s : List Char) : List Char :=
  replaceSub pat rep s.length s

/-- The HTML-entity fixes of _clean_paragraph_text, in source order. -/
def fixEntities (s : List Char) : List Char :=
  replaceAllL "&gt;".data ">".data
    (replaceAllL "&lt;".data "<".data
      (replaceAllL "&amp;".data "&".data
        (replaceAllL "&quot;".data "\"".data s)))

/-- Scan for '>' and return the remainder after it. -/
def skipToGt : List Char → Option (List Char)
  | [] => none
  | c :: t => if c = '>' then some t else skipToGt t

/-- Match the tail of the regex <[^>]+> after an initial '<': at least one
character other than '>', then '>'; returns the remainder. -/
def findGt : List Char → Option (List Char)
  | [] => none
  | c :: t => if c = '>' then none else skipToGt t

/-- re.sub(r'<[^>]+>', '', s), with fuel keeping the recursion structural
(the input length suffices, every step consuming at least one
character). -/
def stripTagsFuel : Nat → List Char → List Char
  | _, [] => []
  | 0, s => s
  | fuel + 1, c :: t =>
      if c = '<' then
        match findGt t with
        | some rest => stripTagsFuel fuel rest
        | none => c :: stripTagsFuel fuel t
      else c :: stripTagsFuel fuel t

/-- Tag stripping entry point. -/
def stripTagsF (s : List Char) : List Char := stripTagsFuel s.length s

/-- Unicode punctuation characters replaced by _clean_paragraph_text. -/
def ldq : Char := Char.ofNat 8220

/-- Right double curly quote. -/
def rdq : Char := Char.ofNat 8221

/-- Left single curly quote. -/
def lsq : Char := Char.ofNat 8216

/-- Right single curly quote. -/
def rsq : Char := Char.ofNat 8217

/-- En dash. -/
def enDash : Char := Char.ofNat 8211

/-- Em dash. -/
def emDash : Char := Char.ofNat 8212

/-- Python str.replace for a single-character needle and replacement. -/
def replaceChar (a b : Char) (s : List Char) : List Char :=
  s.map fun c => if c = a then b else c

/-- The special-character fixes of _clean_paragraph_text, in source order:
curly double quotes to '"', curly single quotes to an apostrophe, en dash
to '-', em dash to ' - '. -/
def fixSpecialChars (s : List Char) : List Char :=
  replaceAllL [emDash] [' ', '-', ' ']
    (replaceChar enDash '-'
      (replaceChar rsq (Char.ofNat 39)
        (replaceChar lsq (Char.ofNat 39)
          (replaceChar rdq (Char.ofNat 34)
            (replaceChar ldq (Char.ofNat 34) s)))))

/-- The normalization prefix of _clean_paragraph_text: whitespace collapse,
entity fixes, tag stripping, special-character fixes, in source order. -/
def preCleanText (t : List Char) : List Char :=
  fixSpecialChars (stripTagsF (fixEntities (collapseWs t)))

/-- Does the (already normalized) text match one of the promotional
patterns, case-insensitively? -/
def matchesPromo (s : List Char) : Bool :=
  promoPatterns.any fun ps => dotStarSearch ps (lowerL s)

/-- _clean_paragraph_text of WordPressContentFormatter: empty input stays
empty; normalized text matching a promotional pattern is discarded
entirely; otherwise the normalized text is returned stripped. -/
def cleanParagraphText (t : List Char) : List Char :=
  if t.isEmpty then []
  else if matchesPromo (preCleanText t) then []
  else trimWs (preCleanText t)

/-- The _enhance_existing_html first loop over find_all('p'): a paragraph
whose stripped text is empty or shorter than 5 characters is decomposed;
otherwise its contents are replaced by the cleaned text (p.string =
clean_text), or the paragraph is decomposed when cleaning discards it. The
snapshot loop visits outer paragraphs before nested ones, so a replaced or
removed paragraph's subtree is not processed further. -/
def enhancePass1 : HF → HF
  | .nil => .nil
  | .text s rest => .text s (enhancePass1 rest)
  | .elem t c i r ch rest =>
      if t == "p" then
        if (getTextF ch).length < 5 then enhancePass1 rest
        else
          if (cleanParagraphText (getTextF ch)).isEmpty then enhancePass1 rest
          else
            .elem t c i r (.text (String.mk (cleanParagraphText (getTextF ch))) .nil)
              (enhancePass1 rest)
      else .elem t c i r (enhancePass1 ch) (enhancePass1 rest)

/-- find_all('p') over a forest, collecting each paragraph's stripped text
in document order. -/
def collectPTexts : HF → List (List Char)
  | .nil => []
  | .text _ rest => collectPTexts rest
  | .elem t _ _ _ ch rest =>
      (if t == "p" then [getTextF ch] else []) ++
        collectPTexts ch ++ collectPTexts rest

/-- The body paragraphs emitted by _enhance_existing_html: after the first
loop, the first max_paragraphs (12) paragraphs are kept and those shorter
than min_paragraph_length (30) are dropped. -/
def enhanceBodyParas (doc : HF) : List (List Char) :=
  ((collectPTexts (enhancePass1 doc)).take 12).filter fun tx => 30 ≤ tx.length

/-- Join body paragraphs as '\n\n'-separated p tags. -/
def bodyHtml (paras : List (List Char)) : String :=
  String.intercalate "\n\n" (paras.map fun tx => "<p>" ++ String.mk tx ++ "</p>")

/-- The source-attribution trailer appended by _enhance_existing_html and
_convert_text_to_html. -/
def sourceAttribution (url src : String) : String :=
  "\n\n<p><strong>Source:</strong> <a href=\"" ++ url ++
    "\" target=\"_blank\" rel=\"noopener noreferrer\">" ++ src ++ "</a></p>"

/-- _enhance_existing_html of WordPressContentFormatter. -/
def enhanceExistingHtml (doc : HF) (url src : String) : String :=
  bodyHtml (enhanceBodyParas doc) ++ sourceAttribution url src

/-- Python s.split('\n\n'): non-overlapping split, left to right. -/
def splitNN : List Char → List (List Char)
  | [] => [[]]
  | '\n' :: '\n' :: rest => [] :: splitNN rest
  | c :: rest =>
      match splitNN rest with
      | [] => [[c]]
      | h :: r => (c :: h) :: r

/-- Sentence terminators of the split regex (?<=[.!?])\s+. -/
def isTermC (c : Char) : Bool := c = '.' || c = '!' || c = '?'

/-- Is the head character whitespace? -/
def headIsWs : List Char → Bool
  | [] => false
  | c :: _ => isWsC c

/-- re.split(r'(?<=[.!?])\s+', s): cut after a terminator that is followed
by whitespace, consuming the whole whitespace run. Fuel (the input length
suffices) keeps the recursion structural. -/
def splitSentFuel : Nat → List Char → List (List Char)
  | _, [] => [[]]
  | 0, s => [s]
  | fuel + 1, c :: t =>
      if isTermC c && headIsWs t then [c] :: splitSentFuel fuel (dropWsAll t)
      else
        match splitSentFuel fuel t with
        | [] => [[c]]
        | h :: r => (c :: h) :: r

/-- Sentence split entry point. -/
def splitSent (s : List Char) : List (List Char) := splitSentFuel s.length s

/-- One step of the sentence-regrouping loop of _convert_text_to_html: the
state is the emitted paragraphs and current_para. -/
def regroupStep (st : List (List Char) × List Char) (s : List Char) :
    List (List Char) × List Char :=
  if (st.2 ++ s).length < 400 then (st.1, st.2 ++ s ++ [' '])
  else if (trimWs st.2).isEmpty then (st.1, s ++ [' '])
  else (st.1 ++ [trimWs st.2], s ++ [' '])

/-- The sentence-regrouping loop of _convert_text_to_html, including the
final flush of current_para. -/
def regroup (sents : List (List Char)) : List (List Char) :=
  let st := sents.foldl regroupStep ([], [])
  if (trimWs st.2).isEmpty then st.1 else st.1 ++ [trimWs st.2]

/-- The body paragraphs emitted by _convert_text_to_html: clean the whole
text, split on double newlines, keep stripped parts of length at least
min_paragraph_length (30), splitting parts longer than 500 characters at
sentence boundaries regrouped below 400 characters, and truncate to
max_paragraphs (12). -/
def convertBodyParas (t : String) : List (List Char) :=
  ((splitNN (cleanParagraphText t.data)).foldl
    (fun acc part =>
      let p := trimWs part
      if 30 ≤ p.length then
        if 500 < p.length then acc ++ regroup (splitSent p)
        else acc ++ [p]
      else acc)
    []).take 12

/-- _convert_text_to_html of WordPressContentFormatter. -/
def convertTextToHtml (t : String) (url src : String) : String :=
  bodyHtml (convertBodyParas t) ++ sourceAttribution url src

/-- Capitalize the first character when it is a lowercase letter
(paragraph[0].islower() followed by paragraph[0].upper() +
paragraph[1:]). -/
def capFirst : List Char → List Char
  | [] => []
  | c :: rest => if isLowerA c then upperA c :: rest else c :: rest

/-- One iteration of the _format_for_wordpress loop: strip the segment,
drop it unless its length exceeds 10, and capitalize the surviving
paragraph's first letter. -/
def formatSegment (seg : List Char) : Option (List Char) :=
  if !(trimWs seg).isEmpty && 10 < (trimWs seg).length then
    some (capFirst (trimWs seg))
  else none

/-- The paragraph list built by _format_for_wordpress of
UltimateContentProcessor. -/
def formatParagraphs (t : String) : List (List Char) :=
  (splitNN t.data).filterMap formatSegment

/-- The attribution trailer appended by _format_for_wordpress. -/
def wpAttribution (url src : String) : String :=
  "\n\n<hr>\n<p><em>Originally published at: <a href=\"" ++ url ++
    "\" target=\"_blank\" rel=\"noopener noreferrer\">" ++ src ++
    "</a></em></p>"

/-- _format_for_wordpress of UltimateContentProcessor. -/
def formatForWordpress (t url src : String) : String :=
  String.intercalate "\n\n"
    ((formatParagraphs t).map fun p => "<p>" ++ String.mk p ++ "</p>") ++
    wpAttribution url src

/-- Consume a case-insensitive literal (given lowercase), returning the
remainder. -/
def dropPrefCI : List Char → List Char → Option (List Char)
  | [], s => some s
  | _ :: _, [] => none
  | a :: as, b :: bs => if a = lowerA b then dropPrefCI as bs else none

/-- Match \s*[-:|]\s* after a title keyword. -/
def matchSepTail (s : List Char) : Option (List Char) :=
  match dropWsAll s with
  | c :: t => if c = '-' || c = ':' || c = '|' then some (dropWsAll t) else none
  | [] => none

/-- Try each keyword alternative at the start position, requiring the
separator tail to follow, as the regex alternation does. -/
def tryAlts : List (List Char) → List Char → Option (List Char)
  | [], _ => none
  | w :: ws, s =>
      match dropPrefCI w s with
      | some s2 =>
          (match matchSepTail s2 with
           | some rest => some rest
           | none => tryAlts ws s)
      | none => tryAlts ws s

/-- re.sub of an anchored prefix pattern ^\s*(alt|...)\s*[-:|]\s* with '',
case-insensitively: at most the one anchored match is removed. -/
def stripKeywordBefore (alts : List (List Char)) (s : List Char) : List Char :=
  match tryAlts alts (dropWsAll s) with
  | some rest => rest
  | none => s

/-- Skip a run of word characters. -/
def dropWordCharsAll : List Char → List Char
  | [] => []
  | c :: t => if isWordC c then dropWordCharsAll t else c :: t

/-- Require at least one word character, then skip the run (regex \w+). -/
def dropWordChars1 : List Char → Option (List Char)
  | [] => none
  | c :: t => if isWordC c then some (dropWordCharsAll t) else none

/-- re.sub of the anchored pattern ^\s*\[\w+\]\s* with ''. -/
def stripBracketTag (s : List Char) : List Char :=
  match dropWsAll s with
  | c :: t =>
      if c = '[' then
        match dropWordChars1 t with
        | some (c2 :: t2) => if c2 = ']' then dropWsAll t2 else s
        | _ => s
      else s
  | [] => s

/-- The keyword alternatives of the first title prefix pattern. -/
def newsAlts : List (List Char) :=
  ["news".data, "update".data, "report".data, "breaking".data]

/-- The keyword alternative of the second title prefix pattern. -/
def latestAlts : List (List Char) := ["latest".data]

/-- _clean_title of UltimateContentProcessor: collapse whitespace on the
stripped title, remove the three anchored prefix patterns in order, and
strip. An empty title maps to the empty string. -/
def cleanTitleL (t : List Char) : List Char :=
  trimWs
    (stripBracketTag
      (stripKeywordBefore latestAlts
        (stripKeywordBefore newsAlts (collapseWs (trimWs t)))))

/-- String-level _clean_title. -/
def cleanTitle (t : String) : String := String.mk (cleanTitleL t.data)

/-- _clean_text_only of UltimateContentProcessor: smart quotes to '"',
dashes to '-', whitespace runs to one space, and the multiple-newline
substitution, then strip. The multiple-newline pattern \n\s*\n\s*\n+ runs
after the whitespace collapse, whose output contains no newline; on
newline-free input it cannot match, so it is the identity here. -/
def cleanTextOnly (t : String) : String :=
  String.mk
    (trimWs
      (collapseWs
        (replaceChar emDash '-'
          (replaceChar enDash '-'
            (replaceChar rdq (Char.ofNat 34)
              (replaceChar ldq (Char.ofNat 34) t.data))))))

/-- An RSS entry as the fields process_rss_content reads: contentVal is the
value resolved from the optional entry.content field (its first element's
value or string form), fullcontent the optional override field. -/
structure RssEntry where
  title : String
  link : String
  description : String
  contentVal : Option String
  fullcontent : Option String
deriving DecidableEq, Repr

/-- The processed-content dictionary returned by process_rss_content
(extracted_at carries no content and is omitted). -/
structure Article where
  title : String
  content : String
  url : String
  source : String
deriving DecidableEq, Repr

/-- The content_html resolution at the top of process_rss_content:
description, overridden by the content field when present, overridden by
fullcontent when present. -/
def resolveContentHtml (e : RssEntry) : String :=
  match e.fullcontent with
  | some v => v
  | none =>
      match e.contentVal with
      | some v => v
      | none => e.description

/-- The title used by the final description fallback:
_clean_title(title) or 'Sports News Update'. -/
def titleOrDefault (t : String) : String :=
  if cleanTitle t = "" then "Sports News Update" else cleanTitle t

/-- _process_rss_html of UltimateContentProcessor: clean the parsed
fragment, take its '\n\n'-separated text, and when the stripped text
exceeds 50 characters return the WordPress-formatted article. -/
def processRssHtml (doc : HF) (title url src : String) : Option Article :=
  if 50 < (trimWs (getTextSep (removeUnwantedElements doc))).length then
    some ⟨cleanTitle title,
      formatForWordpress (String.mk (getTextSep (removeUnwantedElements doc))) url src,
      url, src⟩
  else none

/-- process_rss_content of UltimateContentProcessor. The HTML parser is
passed as a function, and the network fetch of the article page is
represented by the optional pre-parsed document (none models a failed
request, whose exception _extract_full_article catches, returning None). -/
def processRssContent (parse : String → HF) (e : RssEntry) (src : String)
    (fetched : Option HF) : Option Article :=
  let contentHtml := resolveContentHtml e
  let step1 :=
    if 100 < (trimWs contentHtml.data).length then
      processRssHtml (parse contentHtml) e.title e.link src
    else none
  match step1 with
  | some a => some a
  | none =>
      match fetched.bind extractFullArticle with
      | some tx => some ⟨cleanTitle e.title, String.mk tx, e.link, src⟩
      | none =>
          if e.description ≠ "" then
            some ⟨titleOrDefault e.title,
              "<p>" ++ cleanTextOnly e.description ++ "</p>", e.link, src⟩
          else none

/-- One rule step of the remove_ads_from_html selector loop, as the loop
body sees it: evaluating the rule against the current document either
yields the updated document or raises (Except.error). -/
def RuleStep : Type := HF → Except String HF

/-- The for-loop of remove_ads_from_html over its rule list: the loop body
contains no try/except, so an exception from one rule evaluation propagates
and abandons the remaining rules. -/
def runRules : List RuleStep → HF → Except String HF
  | [], doc => .ok doc
  | r :: rs, doc =>
      match r doc with
      | .ok d => runRules rs d
      | .error e => .error e

/-- Follows the words of claim C6 (comparison definition): a rule whose
evaluation raises is skipped, treated as no match for that rule only, and
the pipeline continues with the remaining rules. -/
def runRulesIsolated : List RuleStep → HF → HF
  | [], doc => doc
  | r :: rs, doc =>
      match r doc with
      | .ok d => runRulesIsolated rs d
      | .error _ => runRulesIsolated rs doc

/-!
Claim-side comparison definitions and concrete example inputs.
-/

/-- Modelled from the spec: the code defines no editorial/news keyword list
anywhere, so the spec's "recognized editorial/news indicator keyword" is
realized here by representative sports-editorial vocabulary, for stating
claim C1. -/
def editorialKeywords : List (List Char) :=
  [ "said".data, "announced".data, "reported".data, "match".data,
    "team".data, "season".data, "championship".data, "coach".data,
    "game".data ]

/-- Does the text contain an editorial keyword? -/
def textHasEditorialKeyword (t : List Char) : Bool :=
  editorialKeywords.any fun k => containsSub t k

/-- The first selector whose select_one match has stripped text longer than
200 characters (the reading of the selector loop stated by claim C5 and by
the amended claim's primary case). -/
def firstQualifying : List ASel → HF → Option Elem
  | [], _ => none
  | s :: rest, doc =>
      match selectOne s doc with
      | some e =>
          if 200 < (getTextF e.children).length then some e
          else firstQualifying rest doc
      | none => firstQualifying rest doc

/-- The amended description of the selector loop: the first qualifying
selector's match; otherwise the last selector's match, qualifying or not;
otherwise nothing. -/
def selLoopSpec (sels : List ASel) (doc : HF) : Option Elem :=
  match firstQualifying sels doc with
  | some e => some e
  | none =>
      match sels.getLast? with
      | some s => selectOne s doc
      | none => none

/-- The amended description of the chosen text, built from selLoopSpec and
the body fallback. -/
def chosenTextAmended (cleaned : HF) : List Char :=
  match selLoopSpec articleSelectors cleaned with
  | some e => getTextSep e.children
  | none => bodyFallbackText cleaned

/-- The amended description of _extract_full_article assembled from
selLoopSpec and the body fallback. -/
def extractFullArticleAmended (doc : HF) : Option (List Char) :=
  if 100 < (trimWs (chosenTextAmended (removeUnwantedElements doc))).length then
    some (chosenTextAmended (removeUnwantedElements doc))
  else none

/-- All div/article/section elements of a document in document order, the
block-level candidates named by claim C5. -/
def blockElems : HF → List Elem
  | .nil => []
  | .text _ rest => blockElems rest
  | .elem t c i r ch rest =>
      (if t ∈ ["div", "article", "section"] then [(⟨t, c, i, r, ch⟩ : Elem)]
       else []) ++ blockElems ch ++ blockElems rest

/-- The largest-by-text-length block candidate, first occurrence winning
ties. -/
def largestBlock (doc : HF) : Option Elem :=
  (blockElems doc).foldl
    (fun best e =>
      match best with
      | none => some e
      | some b =>
          if (getTextF b.children).length < (getTextF e.children).length
          then some e else some b)
    none

/-- Follows the words of claim C5 (comparison definition): try the ordered
selectors accepting the first match with text longer than 200 characters;
if none qualifies, the largest-by-text block-level node; failing that the
body, and failing that the document root. -/
def locateSpecClaim (doc : HF) : List Char :=
  match firstQualifying articleSelectors doc with
  | some e => getTextSep e.children
  | none =>
      match largestBlock doc with
      | some e => getTextSep e.children
      | none =>
          match findTag "body" doc with
          | some b => getTextSep b.children
          | none => getTextSep doc

/-- No element of the forest satisfies the node-local predicate. -/
def noSat (p : NPred) : HF → Bool
  | .nil => true
  | .text _ rest => noSat p rest
  | .elem t c i _ ch rest => !p t c i && noSat p ch && noSat p rest

/-- The chrome-container predicate of claim C8. -/
def chromePred : NPred := fun t _ _ =>
  t == "nav" || t == "header" || t == "footer" || t == "aside"

/-- Concrete document for claim C3: a plain div containing the text "shop "
followed by an ad span and the text "now". -/
def docC3 : HF :=
  .elem "div" [] "" ""
    (.text "shop "
      (.elem "span" ["ad"] "" "" (.text "discount stuff" .nil)
        (.text "now" .nil)))
    .nil

/-- Concrete large editorial text for claim C1: 577 characters of sports
reporting vocabulary followed by the phrase "special offer". -/
def longEditorialText : String :=
  String.join (List.replicate 6
    "the championship final was decided late in the evening and the team celebrated with the coach ")
    ++ "special offer"

/-- Concrete large editorial text without promotional language, for the
amended claim C1: 570 characters. -/
def cleanEditorialText : String :=
  String.join (List.replicate 6
    "the championship final was decided late in the evening and the team celebrated with the coach ")

/-- Concrete node for claim C2: no class or id, short promotional-vocabulary
text. -/
def nodeC2 : HF :=
  .elem "div" [] "" "" (.text "great discount today for fans" .nil) .nil

/-- Concrete document for claim C5: a body holding a small story-content
div (150 characters) and a large plain div (300 characters). -/
def docC5 : HF :=
  .elem "body" [] "" ""
    (.elem "div" ["story-content"] "" ""
      (.text (String.mk (List.replicate 150 's')) .nil)
      (.elem "div" [] "" ""
        (.text (String.mk (List.replicate 300 'b')) .nil) .nil))
    .nil

/-- Concrete document for claim C6: an ad div with promotional text. -/
def docC6 : HF :=
  .elem "div" ["ad"] "" "" (.text "buy discount gear" .nil) .nil

/-- A rule whose evaluation raises. -/
def failingRule : RuleStep := fun _ => .error "bad selector"

/-- A healthy rule applying the .ad selector pass. -/
def adDivRule : RuleStep := fun d => .ok (remCSel (.cls "ad") d)

/-- Concrete document for claim C7: one paragraph shorter than the
30-character minimum. -/
def docC7 : HF :=
  .elem "p" [] "" "" (.text "tiny news here" .nil) .nil

/-- Concrete input for claim C4: three sentences of lengths 391, 15 and
391 joined by single spaces (799 characters in all). -/
def sentA : String := String.mk (List.replicate 390 'a' ++ ['.'])

/-- The short middle sentence of the C4 input. -/
def sentB : String := "Hi again there."

/-- The long final sentence of the C4 input. -/
def sentC : String := String.mk (List.replicate 390 'b' ++ ['.'])

/-- The C4 input text. -/
def textC4 : String := sentA ++ " " ++ sentB ++ " " ++ sentC

/-- Concrete input for claim C9: the promotional match lies inside an HTML
tag that _clean_paragraph_text strips before its promotional check. -/
def textC9 : String := "advert <shop now> additional information text"

/-- Concrete input for claim C10. -/
def textC10 : String := "hello world of sports\n\nshort"

/-- Concrete entry for the amended claim C7: a short description and no
content or fetched article. -/
def entryC7 : RssEntry :=
  { title := "Derby ends in dramatic draw"
    link := "https://example.org/derby"
    description := "Big match tonight."
    contentVal := none
    fullcontent := none }

/-- Concrete node for claim C1: a div with an ad class containing the large
editorial text. -/
def nodeC1 : HF :=
  .elem "div" ["ad"] "" "" (.text longEditorialText .nil) .nil

/-- Count elements with a tag anywhere in a forest. -/
def countTag (tg : String) : HF → Nat
  | .nil => 0
  | .text _ rest => countTag tg rest
  | .elem t _ _ _ ch rest =>
      (if t == tg then 1 else 0) + countTag tg ch + countTag tg rest

/-- Count elements with a tag among the top-level nodes only. -/
def countTagTop (tg : String) : HF → Nat
  | .nil => 0
  | .text _ rest => countTagTop tg rest
  | .elem t _ _ _ _ rest => (if t == tg then 1 else 0) + countTagTop tg rest

/-- Concrete document for claim C8: an article whose body paragraph exceeds
the content threshold and which contains a nested aside holding byline
text; the aside is not a top-level node. -/
def docC8 : HF :=
  .elem "article" [] "" ""
    (.elem "p" [] "" "" (.text (String.mk (List.replicate 250 'x')) .nil)
      (.elem "aside" [] "" "" (.text "byline and date" .nil) .nil))
    .nil

/-- Is the first character a lowercase ASCII letter (Python
paragraph[0].islower())? -/
def firstIsLower : List Char → Bool
  | [] => false
  | c :: _ => isLowerA c

/-- Concrete document for the amended claim C4: one paragraph of 39
characters. -/
def docC4w : HF :=
  .elem "p" [] "" ""
    (.text "a solid thirty character paragraph here" .nil) .nil

/-!
Helper lemmas.
-/

theorem capFirst_length (p : List Char) : (capFirst p).length = p.length := by
  cases p with
  | nil => rfl
  | cons c rest => simp only [capFirst]; split <;> simp

theorem isLowerA_upperA (c : Char) (h : isLowerA c = true) :
    isLowerA (upperA c) = false := by
  have hm : c ∈ lowerLetters := by
    simpa [isLowerA] using h
  fin_cases hm <;> decide

theorem firstIsLower_capFirst (p : List Char) :
    firstIsLower (capFirst p) = false := by
  cases p with
  | nil => rfl
  | cons c rest =>
    cases h : isLowerA c with
    | true => simp [capFirst, h, firstIsLower, isLowerA_upperA c h]
    | false => simp [capFirst, h, firstIsLower]

/-!
Claim theorems.
-/

/-- Claim C1 fails on the code: this node's combined text exceeds the
500-character large-block threshold and contains an editorial keyword, and
the node carries an ad class, yet _is_specific_ad_element returns True, so
the element is REMOVED rather than KEPT; the code implements no size
override. -/
theorem C1_counterexample :
    500 < (getTextF (HF.text longEditorialText .nil)).length ∧
    textHasEditorialKeyword (getTextF (HF.text longEditorialText .nil)) = true ∧
    isSpecificAdNode nodeC1 = true := by
  refine ⟨by decide, by decide, by decide⟩

/-- Claim C1 amended: _is_specific_ad_element implements no size override;
a node whose text exceeds 500 characters and contains an editorial keyword
is classified KEEP regardless of any ad-indicating class or id only when
its text additionally carries no promotional signal: it matches no ad
pattern, contains no ad-indicator phrase, and contains no promotional
vocabulary word. -/
theorem C1_amended (classes : List String) (idAttr : String) (t : List Char)
    (hlen : 500 < t.length)
    (hkw : textHasEditorialKeyword t = true)
    (hp : textHasAdPattern (lowerL t) = false)
    (hi : textHasAdIndicator (lowerL t) = false)
    (hw : textHasPromoWord (lowerL t) = false) :
    isSpecificAdElement classes idAttr t = false := by
  simp [isSpecificAdElement, hp, hi, hw]

/-- Witness for the amended claim C1 at a concrete 570-character editorial
text carrying an ad class. -/
theorem C1_amended_witness :
    (500 < cleanEditorialText.data.length ∧
      textHasEditorialKeyword cleanEditorialText.data = true) ∧
    isSpecificAdElement ["ad"] "" cleanEditorialText.data = false :=
  ⟨⟨by decide, by decide⟩,
    C1_amended ["ad"] "" cleanEditorialText.data (by decide) (by decide)
      (by decide) (by decide) (by decide)⟩

/-- Claim C2 fails on the code: this node's text contains the promotional
vocabulary word "discount", the node has no ad-like class or id, and its
text is far below the 500-character threshold, yet _is_specific_ad_element
returns False, so the node is KEPT while part (ii) of the claim demands
REMOVE. -/
theorem C2_counterexample :
    textHasPromoWord (lowerL (getTextF nodeC2)) = true ∧
    attrsPresent [] "" = false ∧
    (getTextF nodeC2).length < 500 ∧
    isSpecificAdNode nodeC2 = false := by
  refine ⟨by decide, by decide, by decide, by decide⟩

/-- Claim C2 amended: (i) a node whose text carries no promotional signal
at all (no ad pattern, no ad-indicator phrase, no promotional vocabulary
word) is KEPT, whatever its class or id; (ii) a node whose text matches an
ad pattern or contains an ad-indicator phrase is REMOVED regardless of
class, id or size — mere promotional vocabulary without an ad-like class
or id does not trigger removal; (iii) a node with both an ad-like class or
id and a promotional vocabulary word in its text is REMOVED, at any size. -/
theorem C2_amended :
    (∀ (classes : List String) (idAttr : String) (t : List Char),
        textHasAdPattern (lowerL t) = false →
        textHasAdIndicator (lowerL t) = false →
        textHasPromoWord (lowerL t) = false →
        isSpecificAdElement classes idAttr t = false) ∧
    (∀ (classes : List String) (idAttr : String) (t : List Char),
        (textHasAdPattern (lowerL t) || textHasAdIndicator (lowerL t)) = true →
        isSpecificAdElement classes idAttr t = true) ∧
    (∀ (classes : List String) (idAttr : String) (t : List Char),
        attrsPresent classes idAttr = true →
        hasAdClassOrId classes idAttr = true →
        textHasPromoWord (lowerL t) = true →
        isSpecificAdElement classes idAttr t = true) := by
  refine ⟨?_, ?_, ?_⟩ <;> intros <;> simp_all [isSpecificAdElement]

/-- Witness for the amended claim C2, exercising part (iii) on a small node
with an ad class and promotional vocabulary. -/
theorem C2_amended_witness :
    (attrsPresent ["ad"] "" = true ∧ hasAdClassOrId ["ad"] "" = true) ∧
    isSpecificAdElement ["ad"] "" "big discount deal".data = true :=
  ⟨⟨by decide, by decide⟩,
    C2_amended.2.2 ["ad"] "" "big discount deal".data (by decide) (by decide)
      (by decide)⟩

/-- Claim C9 fails on the code: this paragraph text matches the
promotional regex shop.*now (the match lies inside an HTML tag), yet
_clean_paragraph_text strips tags before its promotional check and returns
the nonempty cleaned text rather than the empty string. -/
theorem C9_counterexample :
    matchesPromo textC9.data = true ∧
    cleanParagraphText textC9.data ≠ [] := by
  refine ⟨by decide, by decide⟩

/-- Claim C9 amended: whenever the normalized text (whitespace collapsed,
entities fixed, HTML tags stripped, punctuation normalized) matches one of
the promotional regexes, _clean_paragraph_text returns the empty string,
so the formatter drops the paragraph whatever its length; a promotional
match present only inside tag markup is stripped before the check. -/
theorem C9_amended (t : List Char)
    (h : matchesPromo (preCleanText t) = true) :
    cleanParagraphText t = [] := by
  simp [cleanParagraphText, h]

/-- Witness for the amended claim C9 at a concrete promotional sentence. -/
theorem C9_amended_witness :
    matchesPromo (preCleanText "please shop right now for gear".data) = true ∧
    cleanParagraphText "please shop right now for gear".data = [] :=
  ⟨by decide, C9_amended "please shop right now for gear".data (by decide)⟩

/-- Claim C10 holds: _format_for_wordpress discards every segment whose
stripped length is at most 10 characters, every emitted paragraph is longer
than 10 characters and never begins with a lowercase letter, and on the
concrete input the emitted paragraph differs from the raw segment (its
first letter was uppercased and the short segment was dropped). -/
theorem C10_format_rules :
    (∀ (t : String) (p : List Char), p ∈ formatParagraphs t →
        10 < p.length ∧ firstIsLower p = false) ∧
    (∀ seg : List Char, (trimWs seg).length ≤ 10 → formatSegment seg = none) ∧
    formatParagraphs textC10 = ["Hello world of sports".data] := by
  refine ⟨?_, ?_, by decide⟩
  · intro t p hp
    rcases List.mem_filterMap.mp hp with ⟨seg, _, hfs⟩
    unfold formatSegment at hfs
    split at hfs
    · next hcond =>
        obtain ⟨rfl⟩ : capFirst (trimWs seg) = p := Option.some.inj hfs
        simp only [Bool.and_eq_true, decide_eq_true_eq] at hcond
        exact ⟨by rw [capFirst_length]; exact hcond.2, firstIsLower_capFirst _⟩
    · exact absurd hfs (by simp)
  · intro seg h
    unfold formatSegment
    rw [if_neg]
    simp only [Bool.and_eq_true, decide_eq_true_eq, not_and]
    intro _
    omega

/-- Witness for claim C10 at the concrete input. -/
theorem C10_format_rules_witness :
    ("Hello world of sports".data ∈ formatParagraphs textC10) ∧
    (10 < "Hello world of sports".data.length ∧
      firstIsLower "Hello world of sports".data = false) :=
  ⟨by decide, C10_format_rules.1 textC10 "Hello world of sports".data (by decide)⟩

theorem remBy_self_noSat (p : NPred) (f : HF) : noSat p (remBy p f) = true := by
  induction f with
  | nil => rfl
  | text s rest ih => simpa [remBy, noSat] using ih
  | elem t c i r ch rest ih1 ih2 =>
      cases h : p t c i with
      | true => simpa [remBy, h] using ih2
      | false => simp [remBy, h, noSat, ih1, ih2]

theorem noSat_remBy (p q : NPred) (f : HF) (h : noSat p f = true) :
    noSat p (remBy q f) = true := by
  induction f with
  | nil => rfl
  | text s rest ih =>
      simp only [noSat] at h
      simpa [remBy, noSat] using ih h
  | elem t c i r ch rest ih1 ih2 =>
      simp only [noSat, Bool.and_eq_true, Bool.not_eq_true'] at h
      obtain ⟨⟨hpn, hch⟩, hrest⟩ := h
      cases hq : q t c i with
      | true => simpa [remBy, hq] using ih2 hrest
      | false => simp [remBy, hq, noSat, hpn, ih1 hch, ih2 hrest]

theorem noSat_sweep (p : NPred) (f : HF) (h : noSat p f = true) :
    noSat p (sweepEmpties f) = true := by
  induction f with
  | nil => rfl
  | text s rest ih =>
      simp only [noSat] at h
      simpa [sweepEmpties, noSat] using ih h
  | elem t c i r ch rest ih1 ih2 =>
      simp only [noSat, Bool.and_eq_true, Bool.not_eq_true'] at h
      obtain ⟨⟨hpn, hch⟩, hrest⟩ := h
      cases hcond : sweepable t ch with
      | true => simpa [sweepEmpties, hcond] using ih2 hrest
      | false => simp [sweepEmpties, hcond, noSat, hpn, ih1 hch, ih2 hrest]

theorem remBy_eq_of_noSat (p : NPred) (f : HF) (h : noSat p f = true) :
    remBy p f = f := by
  induction f with
  | nil => rfl
  | text s rest ih =>
      simp only [noSat] at h
      simp [remBy, ih h]
  | elem t c i r ch rest ih1 ih2 =>
      simp only [noSat, Bool.and_eq_true, Bool.not_eq_true'] at h
      obtain ⟨⟨hpn, hch⟩, hrest⟩ := h
      simp [remBy, hpn, ih1 hch, ih2 hrest]

theorem sweepable_props (t : String) (ch : HF) (h : sweepable t ch = true) :
    sweepTags.contains t = true ∧ getTextF ch = [] ∧ hasMediaDesc ch = false := by
  simp only [sweepable, Bool.and_eq_true, Bool.not_eq_true'] at h
  exact ⟨h.1.1, List.isEmpty_iff.mp h.1.2, h.2⟩

theorem getTextF_sweep (f : HF) : getTextF (sweepEmpties f) = getTextF f := by
  induction f with
  | nil => rfl
  | text s rest ih => simp [sweepEmpties, getTextF, ih]
  | elem t c i r ch rest ih1 ih2 =>
      cases hcond : sweepable t ch with
      | true =>
          have hempty := (sweepable_props t ch hcond).2.1
          simp [sweepEmpties, hcond, getTextF, ih2, hempty]
      | false => simp [sweepEmpties, hcond, getTextF, ih1, ih2]

theorem sweepTags_not_media (t : String) (h : sweepTags.contains t = true) :
    mediaTags.contains t = false := by
  have hm : t ∈ sweepTags := by simpa [sweepTags] using h
  fin_cases hm <;> decide

theorem hasMedia_sweep (f : HF) :
    hasMediaDesc (sweepEmpties f) = hasMediaDesc f := by
  induction f with
  | nil => rfl
  | text s rest ih => simp [sweepEmpties, hasMediaDesc, ih]
  | elem t c i r ch rest ih1 ih2 =>
      cases hcond : sweepable t ch with
      | true =>
          obtain ⟨htag, _, hmed⟩ := sweepable_props t ch hcond
          have hnm : t ∉ mediaTags := by
            simpa using sweepTags_not_media t htag
          simp [sweepEmpties, hcond, hasMediaDesc, ih2, hmed, hnm]
      | false => simp [sweepEmpties, hcond, hasMediaDesc, ih1, ih2]

theorem sweepable_sweep (t : String) (ch : HF) :
    sweepable t (sweepEmpties ch) = sweepable t ch := by
  simp [sweepable, getTextF_sweep, hasMedia_sweep]

theorem sweep_sweep (f : HF) :
    sweepEmpties (sweepEmpties f) = sweepEmpties f := by
  induction f with
  | nil => rfl
  | text s rest ih => simp [sweepEmpties, ih]
  | elem t c i r ch rest ih1 ih2 =>
      cases hcond : sweepable t ch with
      | true => simpa [sweepEmpties, hcond] using ih2
      | false => simp [sweepEmpties, hcond, sweepable_sweep, ih1, ih2]

theorem applyPreds_cons (p : NPred) (ps : List NPred) (f : HF) :
    applyPreds (p :: ps) f = applyPreds ps (remBy p f) := rfl

theorem noSat_applyPreds (p : NPred) (ps : List NPred) (f : HF)
    (h : noSat p f = true) : noSat p (applyPreds ps f) = true := by
  induction ps generalizing f with
  | nil => exact h
  | cons q qs ih => exact ih (remBy q f) (noSat_remBy p q f h)

theorem noSat_applyPreds_mem :
    ∀ (ps : List NPred) (p : NPred) (f : HF), p ∈ ps →
      noSat p (applyPreds ps f) = true
  | [], p, f, h => absurd h (List.not_mem_nil p)
  | q :: qs, p, f, h => by
      rcases List.mem_cons.mp h with rfl | hmem
      · exact noSat_applyPreds p qs (remBy p f) (remBy_self_noSat p f)
      · exact noSat_applyPreds_mem qs p (remBy q f) hmem

theorem applyPreds_eq_of_noSat :
    ∀ (ps : List NPred) (f : HF), (∀ p ∈ ps, noSat p f = true) →
      applyPreds ps f = f
  | [], _, _ => rfl
  | q :: qs, f, h => by
      rw [applyPreds_cons, remBy_eq_of_noSat q f (h q (List.mem_cons_self q qs))]
      exact applyPreds_eq_of_noSat qs f fun p hp => h p (List.mem_cons_of_mem q hp)

theorem noSat_chrome_of (f : HF)
    (h1 : noSat (fun tg c i => eselMatches (.tagSel "nav") tg c i) f = true)
    (h2 : noSat (fun tg c i => eselMatches (.tagSel "header") tg c i) f = true)
    (h3 : noSat (fun tg c i => eselMatches (.tagSel "footer") tg c i) f = true)
    (h4 : noSat (fun tg c i => eselMatches (.tagSel "aside") tg c i) f = true) :
    noSat chromePred f = true := by
  induction f with
  | nil => rfl
  | text s rest ih =>
      simp only [noSat] at h1 h2 h3 h4 ⊢
      exact ih h1 h2 h3 h4
  | elem t c i r ch rest ih1 ih2 =>
      simp only [noSat, eselMatches, chromePred, Bool.and_eq_true,
        Bool.not_eq_true'] at h1 h2 h3 h4 ⊢
      refine ⟨⟨?_, ih1 h1.1.2 h2.1.2 h3.1.2 h4.1.2⟩, ih2 h1.2 h2.2 h3.2 h4.2⟩
      simp [h1.1.1, h2.1.1, h3.1.1, h4.1.1]

/-- Claim C3 fails on the code: on this document a single run of
remove_ads_from_html removes the ad span but the str(soup) round trip
merges the surrounding text nodes into "shop now", which a second run then
matches and removes — cleaning twice differs from cleaning once. -/
theorem C3_counterexample :
    removeAdsFromHtml (removeAdsFromHtml docC3) ≠ removeAdsFromHtml docC3 := by
  decide

/-- Claim C3 amended: _remove_unwanted_elements is idempotent — a second
run on an already-cleaned tree detaches nothing further — while
remove_ads_from_html is not idempotent in general, because its re-serialized
output can merge adjacent text nodes into new promotional-pattern
matches. -/
theorem C3_amended (doc : HF) :
    removeUnwantedElements (removeUnwantedElements doc) =
      removeUnwantedElements doc := by
  unfold removeUnwantedElements
  rw [applyPreds_eq_of_noSat allRemovalPreds
    (sweepEmpties (applyPreds allRemovalPreds doc))
    (fun p hp => noSat_sweep p _ (noSat_applyPreds_mem allRemovalPreds p doc hp))]
  exact sweep_sweep _

/-- Claim C8 fails on the code: in this document the only aside sits
nested inside the article body (none is at top level) and the article text
exceeds the content threshold, yet _remove_unwanted_elements removes the
nested aside rather than leaving confirmed article content unchanged. -/
theorem C8_counterexample :
    countTagTop "aside" docC8 = 0 ∧
    countTag "aside" docC8 = 1 ∧
    200 < (getTextF docC8).length ∧
    countTag "aside" (removeUnwantedElements docC8) = 0 := by
  refine ⟨by decide, by decide, by decide, by decide⟩

/-- Claim C8 amended: the cleanup detaches chrome containers
(nav/header/footer/aside) unconditionally at every depth of the document,
including inside the content later confirmed as the article body — after
_remove_unwanted_elements no such element remains anywhere. -/
theorem C8_amended (doc : HF) :
    noSat chromePred (removeUnwantedElements doc) = true := by
  have hmem : ∀ t : String, ESel.tagSel t ∈ enhancedAdSelectors →
      noSat (fun tg c i => eselMatches (.tagSel t) tg c i)
        (removeUnwantedElements doc) = true := by
    intro t ht
    exact noSat_sweep _ _ (noSat_applyPreds_mem allRemovalPreds _ doc
      (List.mem_cons_of_mem _ (List.mem_map_of_mem _ ht)))
  exact noSat_chrome_of _ (hmem "nav" (by decide)) (hmem "header" (by decide))
    (hmem "footer" (by decide)) (hmem "aside" (by decide))

theorem selLoop_eq_selLoopSpec :
    ∀ (sels : List ASel) (doc : HF), selLoop sels doc = selLoopSpec sels doc
  | [], _ => rfl
  | [s], doc => by
      cases h : selectOne s doc with
      | none => simp [selLoop, selLoopSpec, firstQualifying, h]
      | some e =>
          by_cases hq : 200 < (getTextF e.children).length
          · simp [selLoop, selLoopSpec, firstQualifying, h, hq]
          · simp [selLoop, selLoopSpec, firstQualifying, h, hq]
  | s :: s2 :: rest, doc => by
      have ih := selLoop_eq_selLoopSpec (s2 :: rest) doc
      cases h : selectOne s doc with
      | none =>
          simp only [selLoop, h, ih, selLoopSpec, firstQualifying,
            List.getLast?_cons_cons]
      | some e =>
          by_cases hq : 200 < (getTextF e.children).length
          · simp [selLoop, h, hq, selLoopSpec, firstQualifying]
          · simp only [selLoop, h, hq, if_false, ih, selLoopSpec,
              firstQualifying, List.getLast?_cons_cons]

/-- Claim C5 fails on the code: in this document no selector match exceeds
the 200-character threshold, so the claim's algorithm falls back to the
largest block-level node (the 300-character div), but _extract_full_article
keeps the last selector's 150-character story-content match regardless of
the threshold — and the code contains no largest-block fallback at all. -/
theorem C5_counterexample :
    extractFullArticle docC5 = some (List.replicate 150 's') ∧
    locateSpecClaim docC5 = List.replicate 300 'b' ∧
    (List.replicate 150 's' : List Char) ≠ List.replicate 300 'b' := by
  refine ⟨by decide, by decide, by decide⟩

theorem chosenText_eq (cleaned : HF) :
    chosenText cleaned = chosenTextAmended cleaned := by
  unfold chosenText chosenTextAmended
  rw [selLoop_eq_selLoopSpec]

/-- Claim C5 amended: the locator accepts the first selector match whose
stripped text exceeds 200 characters; when no selector qualifies, the last
selector's match, if any, is used regardless of its length; otherwise it
falls back to the body text (with nav/header/footer/aside removed) and,
with no body, the whole document's text; the result is returned only when
its stripped length exceeds 100 characters, and no largest-block fallback
exists. -/
theorem C5_amended (doc : HF) :
    extractFullArticle doc = extractFullArticleAmended doc := by
  unfold extractFullArticle extractFullArticleAmended
  rw [chosenText_eq]

/-- Claim C6 fails on the code: the selector loop of remove_ads_from_html
has no per-rule error handling, so a rule whose evaluation raises aborts
the whole cleaning (the remaining rule, which would have removed the ad
div, never runs), while the claim's isolated evaluation would have
continued and cleaned the document. -/
theorem C6_counterexample :
    runRules [failingRule, adDivRule] docC6 = .error "bad selector" ∧
    runRulesIsolated [failingRule, adDivRule] docC6 = .nil ∧
    HF.nil ≠ docC6 := by
  refine ⟨rfl, rfl, by decide⟩

/-- Claim C6 amended: the cleaning loops contain no per-rule error
handling — whenever the rules before it succeed, a rule whose evaluation
raises propagates its error out of the loop, skipping the remaining rules
and leaving the rest of the document uncleaned; a failing rule is never
skipped in isolation. -/
theorem C6_amended :
    ∀ (pre : List RuleStep) (r : RuleStep) (post : List RuleStep)
      (doc d : HF) (e : String),
      runRules pre doc = .ok d → r d = .error e →
      runRules (pre ++ r :: post) doc = .error e
  | [], r, post, doc, d, e, h1, h2 => by
      cases h1
      simp [runRules, h2]
  | q :: qs, r, post, doc, d, e, h1, h2 => by
      cases hq : q doc with
      | ok d2 =>
          have h3 : runRules qs d2 = .ok d := by
            simpa [runRules, hq] using h1
          simpa [runRules, hq] using C6_amended qs r post d2 d e h3 h2
      | error e2 =>
          exact absurd h1 (by simp [runRules, hq])

/-- Witness for the amended claim C6: the healthy rule succeeds, then the
raising rule aborts the run. -/
theorem C6_amended_witness :
    runRules [adDivRule] docC6 = .ok .nil ∧
    runRules ([adDivRule] ++ failingRule :: []) docC6 = .error "bad selector" :=
  ⟨rfl, C6_amended [adDivRule] failingRule [] docC6 .nil "bad selector" rfl rfl⟩

/-- Claim C4 fails on the code: on this input three paragraphs survive
filtering (so no fallback case applies), yet the middle one emitted by
_convert_text_to_html is only 15 characters long, far below the
30-character minimum — the sentence-regrouping path appends chunks without
re-checking the minimum length. -/
theorem C4_counterexample :
    (convertBodyParas textC4).length = 3 ∧
    ∃ p ∈ convertBodyParas textC4, p.length < 30 := by
  refine ⟨by decide, by decide⟩

/-- Claim C4 amended: every body paragraph of _enhance_existing_html is at
least 30 characters long and at most 12 are emitted; _convert_text_to_html
also caps its body at 12 paragraphs, but paragraphs produced by its
sentence-regrouping of over-500-character parts may be shorter than 30
characters; no fallback paragraph exists; both functions append the
source-attribution trailer after the capped body as the final element. -/
theorem C4_amended :
    (∀ (doc : HF), ∀ p ∈ enhanceBodyParas doc, 30 ≤ p.length) ∧
    (∀ doc : HF, (enhanceBodyParas doc).length ≤ 12) ∧
    (∀ t : String, (convertBodyParas t).length ≤ 12) ∧
    (∀ (doc : HF) (url src : String),
        enhanceExistingHtml doc url src =
          bodyHtml (enhanceBodyParas doc) ++ sourceAttribution url src) ∧
    (∀ (t url src : String),
        convertTextToHtml t url src =
          bodyHtml (convertBodyParas t) ++ sourceAttribution url src) := by
  refine ⟨?_, ?_, ?_, fun _ _ _ => rfl, fun _ _ _ => rfl⟩
  · intro doc p hp
    have := List.of_mem_filter hp
    simpa using this
  · intro doc
    calc (enhanceBodyParas doc).length
        ≤ ((collectPTexts (enhancePass1 doc)).take 12).length :=
          List.length_filter_le _ _
      _ ≤ 12 := List.length_take_le _ _
  · intro t
    exact List.length_take_le _ _

/-- Witness for the amended claim C4 at a one-paragraph document. -/
theorem C4_amended_witness :
    ("a solid thirty character paragraph here".data ∈ enhanceBodyParas docC4w) ∧
    30 ≤ "a solid thirty character paragraph here".data.length :=
  ⟨by decide,
    C4_amended.1 docC4w "a solid thirty character paragraph here".data (by decide)⟩

/-- Claim C7 fails on the code: this document is non-empty, but after
filtering no paragraph remains and _enhance_existing_html emits no fallback
paragraph — its output is exactly the attribution trailer, with no trace of
the original text. -/
theorem C7_counterexample :
    getTextF docC7 ≠ [] ∧
    enhanceBodyParas docC7 = [] ∧
    enhanceExistingHtml docC7 "https://example.org/a" "Example" =
      sourceAttribution "https://example.org/a" "Example" := by
  refine ⟨by decide, by decide, by decide⟩

/-- Claim C7 amended: the paragraph reconstructor emits no fallback
paragraph — when every surviving candidate is below the minimum length the
body is empty and only the attribution remains; degraded output exists one
level up instead: when the RSS content is too short and the full-article
fetch yields nothing, process_rss_content wraps the non-empty description
as a single-paragraph article rather than failing. -/
theorem C7_amended :
    (∀ doc : HF,
        (((collectPTexts (enhancePass1 doc)).take 12).all
          fun tx => tx.length < 30) = true →
        enhanceBodyParas doc = []) ∧
    (∀ (parse : String → HF) (e : RssEntry) (src : String)
        (fetched : Option HF),
        ¬ (100 < (trimWs (resolveContentHtml e).data).length) →
        fetched.bind extractFullArticle = none →
        e.description ≠ "" →
        processRssContent parse e src fetched =
          some ⟨titleOrDefault e.title,
            "<p>" ++ cleanTextOnly e.description ++ "</p>", e.link, src⟩) := by
  constructor
  · intro doc h
    unfold enhanceBodyParas
    rw [List.filter_eq_nil_iff]
    intro a ha
    have := List.all_eq_true.mp h a ha
    simp only [decide_eq_true_eq] at this ⊢
    omega
  · intro parse e src fetched h1 h2 h3
    unfold processRssContent
    dsimp only
    rw [if_neg h1, h2]
    simp [h3]

/-- Witness for the amended claim C7 at a concrete entry with a short
description and no fetched article. -/
theorem C7_amended_witness :
    entryC7.description ≠ "" ∧
    processRssContent (fun _ => HF.nil) entryC7 "Example Sports" none =
      some ⟨titleOrDefault entryC7.title,
        "<p>" ++ cleanTextOnly entryC7.description ++ "</p>",
        entryC7.link, "Example Sports"⟩ :=
  ⟨by decide,
    C7_amended.2 (fun _ => HF.nil) entryC7 "Example Sports" none (by decide)
      rfl (by decide)⟩

end SportsAgg
